import Mathlib

/-!
Shallow embedding of `src/librustdoc/clean/blanket_impl.rs` (the blanket
implementation finder of rustdoc) and proofs of the specification claims.

The finder's external collaborators (the rustc type context `tcx`, the
accessibility oracle, the inference/unification service and the display
plumbing of `DocContext`) are modelled as fields of a `Universe` record,
exactly as the specification describes them as external interfaces.
The code of `get_blanket_impls`, `get_with_def_id` and `get_with_node_id`
is translated statement by statement; the mutable state it touches
(`cx.generated_synthetics` and the fresh-`DefId` counter behind
`cx.next_def_id`) is threaded explicitly as a `FinderState`, and the
panic of `.expect("Cannot get impl trait")` becomes `Except.error`.
-/

namespace BlanketImpl

/-- Opaque, globally unique definition identifier (rustc `DefId`). -/
structure DefId where
  id : Nat
deriving DecidableEq, Repr

/-- Structural types: primitives, named types (with arguments attached in
curried fashion via `app`), free type-parameter placeholders, and
inference variables introduced by `fresh_substs_for_item` during a
candidate check. -/
inductive Ty where
  | prim : Nat → Ty
  | adt : DefId → Ty
  | app : Ty → Ty → Ty
  | param : Nat → Ty
  | infer : Nat → Ty
deriving DecidableEq, Repr

/-- `ty.is_primitive()` in the source. -/
def Ty.isPrimitive : Ty → Bool
  | .prim _ => true
  | _ => false

/-- The `TyParam(_)` pattern test of the source's blanket-shape filter. -/
def Ty.isParam : Ty → Bool
  | .param _ => true
  | _ => false

/-- `ty.subst(tcx, substs)`: replace each type parameter `i` by `s i`. -/
def Ty.subst (s : Nat → Ty) : Ty → Ty
  | .prim n => .prim n
  | .adt d => .adt d
  | .app f a => .app (f.subst s) (a.subst s)
  | .param i => s i
  | .infer v => .infer v

/-- A trait reference `Trait<Args> for SelfType` (rustc `TraitRef`);
trait predicates in a parameter environment have the same shape. -/
structure TraitRef where
  trait : DefId
  self_ty : Ty
  args : List Ty
deriving DecidableEq, Repr

/-- `trait_ref.subst(tcx, substs)`. -/
def TraitRef.subst (s : Nat → Ty) (tr : TraitRef) : TraitRef :=
  { tr with self_ty := tr.self_ty.subst s, args := tr.args.map (Ty.subst s) }

/-- `infcx.fresh_substs_for_item`: the fresh inference variables handed out
for an item's generics, starting at index `c` (the inference context is
opened fresh per candidate, so the first call starts at 0). -/
def freshSubsts (c : Nat) : Nat → Ty := fun i => Ty.infer (c + i)

/-- Result of a `def_ctor` capability (`Fn(DefId) -> Def` in the source);
only consumed by the display plumbing `get_real_ty`. -/
structure Def where
  tag : Nat
deriving DecidableEq, Repr

/-- The external collaborators of the finder: the queryable type/trait
universe, the accessibility oracle, the inference/unification service, and
the display plumbing of `DocContext` that is defined outside this source
file (`get_real_ty`, `next_def_id`, `local_def_id` and, modelled from the
spec, the `def_ctor` suppliers of `get_def_from_def_id` /
`get_def_from_node_id`). -/
structure Universe where
  /-- `tcx.get_attrs(d).lists("doc").has_word("hidden")`. -/
  hasDocHidden : DefId → Bool
  /-- `cx.access_levels.borrow().is_doc_reachable(d)`. -/
  isDocReachable : DefId → Bool
  /-- `tcx.type_of(d)` (for an impl, its self type). -/
  typeOf : DefId → Ty
  /-- number of generic parameters of `tcx.generics_of(d)`. -/
  genericsCount : DefId → Nat
  /-- `tcx.param_env(d)`, a set of trait predicates. -/
  paramEnvOf : DefId → List TraitRef
  /-- `cx.all_traits`, in registration order. -/
  allTraits : List DefId
  /-- `tcx.for_each_relevant_impl(trait, ty, ...)`: the candidate impls. -/
  relevantImpls : DefId → Ty → List DefId
  /-- `tcx.impl_trait_ref(impl)`. -/
  implTraitRef : DefId → Option TraitRef
  /-- `tcx.provided_trait_methods(trait)`, as method names. -/
  providedTraitMethods : DefId → List String
  /-- `tcx.associated_items(impl)`, as item names. -/
  associatedItems : DefId → List String
  /-- `tcx.predicates_of(impl)`. -/
  predicatesOf : DefId → List TraitRef
  /-- `tcx.def_span(impl).clean(cx)`. -/
  defSpan : DefId → Nat
  /-- `infcx.at(cause, param_env).eq(a, b)`: `some obligations` on success,
  `none` when the two types cannot be unified. -/
  equal : Ty → Ty → List TraitRef → Option (List TraitRef)
  /-- `infcx.predicate_may_hold(Obligation::new(cause, param_env, pred))`. -/
  mayHold : List TraitRef → TraitRef → Bool
  /-- `cx.get_real_ty(def_id, def_ctor, real_name, generics)`. -/
  getRealTy : (DefId → Def) → DefId → Option String → Ty
  /-- `cx.next_def_id(krate)`, with its session counter made explicit. -/
  nextDefId : DefId → Nat → DefId
  /-- `cx.tcx.hir.local_def_id(node_id)`. -/
  localDefId : Nat → DefId
  /-- Modelled from the spec: the `def_ctor` that `get_def_from_def_id`
  (in `def_ctor.rs`, not part of this source) supplies to its callback —
  a universe-provided constructor of the displayed type. -/
  defCtorOfDef : DefId → (DefId → Def)
  /-- Modelled from the spec: the `def_ctor` that `get_def_from_node_id`
  supplies to its callback for a locally declared item. -/
  defCtorOfNode : Nat → (DefId → Def)

/-- The `Impl` payload of a synthesized item (only externally
representable fields are kept; the constant `unsafety: Normal` field is
omitted). `generics` is the `(t_generics, predicates)` pair that the
source cleans into the record. -/
structure Impl where
  generics : Nat × List TraitRef
  provided_trait_methods : List String
  trait_ : Option DefId
  for_ : Ty
  items : List String
  polarity : Option Bool
  synthetic : Bool
  blanket_impl : Option Ty
deriving DecidableEq, Repr

/-- A synthesized documentation item (`Item` in the source; the constant
`attrs: Default::default()` field is omitted). -/
structure Item where
  source : Nat
  name : Option String
  visibility : Option Unit
  def_id : DefId
  stability : Option Unit
  deprecation : Option Unit
  inner : Impl
deriving DecidableEq, Repr

/-- The mutable `DocContext` state the finder touches: the memoization
ledger `cx.generated_synthetics` (inserted keys, most recent first) and
the fresh-`DefId` counter behind `cx.next_def_id`. -/
structure FinderState where
  ledger : List (DefId × DefId)
  counter : Nat
deriving DecidableEq, Repr

/-- The body of the closure passed to `infcx.enter` for one candidate
implementation: the `impl_trait_ref` fetch (whose `.expect` is the error
case), the blanket-shape filter, both substitutions, unification, the
plausibility check, the ledger insertion and the record construction. -/
def checkImpl (u : Universe) (def_ctor : DefId → Def) (def_id : DefId)
    (real_name : Option String) (trait_def_id impl_def_id : DefId)
    (st : FinderState) : Except String (FinderState × Option Item) :=
  let t_generics := u.genericsCount impl_def_id
  match u.implTraitRef impl_def_id with
  | none => Except.error "Cannot get impl trait"
  | some trait_ref =>
    if trait_ref.self_ty.isParam then
      let substs := freshSubsts 0
      let ty := (u.typeOf def_id).subst substs
      let param_env := (u.paramEnvOf def_id).map (fun p => p.subst substs)
      let impl_substs := freshSubsts (u.genericsCount def_id)
      let trait_ref := trait_ref.subst impl_substs
      match u.equal trait_ref.self_ty ty param_env with
      | some _obligations =>
        let may_apply := u.mayHold param_env trait_ref
        if may_apply then
          let st1 : FinderState :=
            { st with ledger := (def_id, trait_def_id) :: st.ledger }
          let item : Item :=
            { source := u.defSpan impl_def_id
              name := none
              visibility := none
              def_id := u.nextDefId impl_def_id st1.counter
              stability := none
              deprecation := none
              inner :=
                { generics := (t_generics, u.predicatesOf impl_def_id)
                  provided_trait_methods := u.providedTraitMethods trait_def_id
                  trait_ := some trait_def_id
                  for_ := u.getRealTy def_ctor def_id real_name
                  items := u.associatedItems impl_def_id
                  polarity := none
                  synthetic := false
                  blanket_impl := some (u.typeOf impl_def_id) } }
          Except.ok ({ st1 with counter := st1.counter + 1 }, some item)
        else
          Except.ok (st, none)
      | none => Except.ok (st, none)
    else
      Except.ok (st, none)

/-- The `for_each_relevant_impl` iteration for one trait: each candidate
is checked with a fresh inference context; produced records are pushed in
iteration order, and the `.expect` panic propagates. -/
def checkImpls (u : Universe) (def_ctor : DefId → Def) (def_id : DefId)
    (real_name : Option String) (trait_def_id : DefId) :
    List DefId → FinderState → Except String (FinderState × List Item)
  | [], st => Except.ok (st, [])
  | impl_def_id :: rest, st =>
    match checkImpl u def_ctor def_id real_name trait_def_id impl_def_id st with
    | Except.error e => Except.error e
    | Except.ok (st1, r) =>
      match checkImpls u def_ctor def_id real_name trait_def_id rest st1 with
      | Except.error e => Except.error e
      | Except.ok (st2, items) => Except.ok (st2, r.toList ++ items)

/-- The `for &trait_def_id in self.cx.all_traits` loop: a trait is skipped
when it is not doc-reachable or the `(target, trait)` pair is already in
`generated_synthetics`; otherwise its relevant impls are scanned. -/
def traitLoop (u : Universe) (def_ctor : DefId → Def) (def_id : DefId)
    (real_name : Option String) (ty : Ty) :
    List DefId → FinderState → Except String (FinderState × List Item)
  | [], st => Except.ok (st, [])
  | trait_def_id :: rest, st =>
    if u.isDocReachable trait_def_id = false ∨ (def_id, trait_def_id) ∈ st.ledger then
      traitLoop u def_ctor def_id real_name ty rest st
    else
      match checkImpls u def_ctor def_id real_name trait_def_id
          (u.relevantImpls trait_def_id ty) st with
      | Except.error e => Except.error e
      | Except.ok (st1, items1) =>
        match traitLoop u def_ctor def_id real_name ty rest st1 with
        | Except.error e => Except.error e
        | Except.ok (st2, items2) => Except.ok (st2, items1 ++ items2)

/-- `BlanketImplFinder::get_blanket_impls`: the hidden short-circuit, the
reachable-or-primitive gate, and the trait loop. -/
def get_blanket_impls (u : Universe) (def_ctor : DefId → Def) (def_id : DefId)
    (name : Option String) (st : FinderState) :
    Except String (FinderState × List Item) :=
  if u.hasDocHidden def_id then
    Except.ok (st, [])
  else
    let ty := u.typeOf def_id
    if u.isDocReachable def_id || ty.isPrimitive then
      let real_name := name
      traitLoop u def_ctor def_id real_name ty u.allTraits st
    else
      Except.ok (st, [])

/-- `BlanketImplFinder::get_with_def_id`. Modelled from the spec for the
missing `def_ctor.rs`: `get_def_from_def_id` resolves the definition
directly and hands a universe-provided constructor to the callback, which
forwards to `get_blanket_impls` with no display-name override. -/
def get_with_def_id (u : Universe) (def_id : DefId) (st : FinderState) :
    Except String (FinderState × List Item) :=
  get_blanket_impls u (u.defCtorOfDef def_id) def_id none st

/-- `BlanketImplFinder::get_with_node_id`. Modelled from the spec for the
missing `def_ctor.rs`: `get_def_from_node_id` resolves the local node id
to a definition (`local_def_id`, as the source's callback also does),
supplies the given display name, and forwards to `get_blanket_impls`. -/
def get_with_node_id (u : Universe) (id : Nat) (name : String)
    (st : FinderState) : Except String (FinderState × List Item) :=
  get_blanket_impls u (u.defCtorOfNode id) (u.localDefId id) (some name) st

/-- Stated from the specification's words (for comparison with the code):
"provided-but-unoverridden trait methods = names of the trait's default
methods not redefined by `I`". -/
def specProvidedTraitMethods (u : Universe) (trait_def_id impl_def_id : DefId) :
    List String :=
  (u.providedTraitMethods trait_def_id).filter
    (fun m => decide (m ∉ u.associatedItems impl_def_id))

/-- Replace the display-only `for_` field of a record. -/
def setFor (v : Ty) (it : Item) : Item :=
  { it with inner := { it.inner with for_ := v } }

/-- Erase the display-only `for_` field of every record of a result,
keeping the state, the error, and every other field of every record. -/
def scrub (r : Except String (FinderState × List Item)) :
    Except String (FinderState × List Item) :=
  r.map (fun p => (p.1, p.2.map (setFor (Ty.prim 0))))

/-- The record sequence of a successful analysis (empty on abort). -/
def resultItems (r : Except String (FinderState × List Item)) : List Item :=
  match r with
  | Except.ok p => p.2
  | Except.error _ => []

/-- Whether the analysis ran to completion without aborting. -/
def analysisOk (r : Except String (FinderState × List Item)) : Bool :=
  match r with
  | Except.ok _ => true
  | Except.error _ => false

/-- How many records of a sequence name a given trait. -/
def countTrait (items : List Item) (t : DefId) : Nat :=
  (items.filter (fun it => decide (it.inner.trait_ = some t))).length

/-- Every record naming a trait has its `(target, trait)` pair in the
given ledger. -/
def ledgerCovers (d : DefId) (l : List (DefId × DefId)) (items : List Item) :
    Bool :=
  items.all (fun it =>
    match it.inner.trait_ with
    | some t => decide ((d, t) ∈ l)
    | none => true)

/-! ### Concrete universes for counterexamples and witnesses

Definition ids: `⟨1⟩` is the target type, `⟨2⟩` (and `⟨6⟩`) are traits,
`⟨3⟩`/`⟨4⟩` are blanket implementations, `⟨5⟩`/`⟨7⟩` are implementations
whose trait reference is missing. -/

/-- A trivial `def_ctor` capability. -/
def c0 : DefId → Def := fun _ => ⟨0⟩

/-- The target type definition. -/
def dX : DefId := ⟨1⟩

/-- The trait definition. -/
def tT : DefId := ⟨2⟩

/-- The first blanket implementation. -/
def i1 : DefId := ⟨3⟩

/-- The initial finder state: empty ledger, counter 0. -/
def st0 : FinderState := ⟨[], 0⟩

/-- The blanket trait reference `Tr for T` (self type is the parameter). -/
def trT : TraitRef := { trait := ⟨2⟩, self_ty := Ty.param 0, args := [] }

/-- A universe with one reachable trait `⟨2⟩`, one blanket implementation
`⟨3⟩` of it, everything reachable, a unification service that always
succeeds and an obligation solver that always answers "may hold". -/
def baseU : Universe :=
  { hasDocHidden := fun _ => false
    isDocReachable := fun _ => true
    typeOf := fun d => if d.id ≥ 3 then Ty.param 0 else Ty.adt ⟨1⟩
    genericsCount := fun d => if d.id ≥ 3 then 1 else 0
    paramEnvOf := fun _ => []
    allTraits := [⟨2⟩]
    relevantImpls := fun t _ => if t = ⟨2⟩ then [⟨3⟩] else []
    implTraitRef := fun _ => some trT
    providedTraitMethods := fun _ => ["foo"]
    associatedItems := fun _ => []
    predicatesOf := fun _ => []
    defSpan := fun _ => 0
    equal := fun _ _ _ => some []
    mayHold := fun _ _ => true
    getRealTy := fun _ d _ => Ty.adt d
    nextDefId := fun _ c => ⟨100 + c⟩
    localDefId := fun n => ⟨n⟩
    defCtorOfDef := fun _ => fun _ => ⟨0⟩
    defCtorOfNode := fun _ => fun _ => ⟨0⟩ }

/-- The record synthesized from `baseU` for target `⟨1⟩`, trait `⟨2⟩`,
implementation `⟨3⟩`. -/
def itemBase : Item :=
  { source := 0
    name := none
    visibility := none
    def_id := ⟨100⟩
    stability := none
    deprecation := none
    inner :=
      { generics := (1, [])
        provided_trait_methods := ["foo"]
        trait_ := some ⟨2⟩
        for_ := Ty.adt ⟨1⟩
        items := []
        polarity := none
        synthetic := false
        blanket_impl := some (Ty.param 0) } }

/-- The finder state after the single synthesis of `baseU`. -/
def stBase : FinderState := ⟨[(⟨1⟩, ⟨2⟩)], 1⟩

/-- `baseU` with two qualifying blanket implementations for the same
trait `⟨2⟩`. -/
def uC1 : Universe :=
  { baseU with relevantImpls := fun t _ => if t = ⟨2⟩ then [⟨3⟩, ⟨4⟩] else [] }

/-- `uC1` with a second reachable trait `⟨6⟩` that has one qualifying
blanket implementation. -/
def uC1w : Universe :=
  { uC1 with
    allTraits := [⟨2⟩, ⟨6⟩]
    relevantImpls := fun t _ =>
      if t = ⟨2⟩ then [⟨3⟩, ⟨4⟩] else if t = ⟨6⟩ then [⟨3⟩] else [] }

/-- `baseU` where the implementation redefines the trait's only default
method `foo`. -/
def uC3 : Universe :=
  { baseU with associatedItems := fun _ => ["foo"] }

/-- `baseU` with a hidden target. -/
def uHidden : Universe :=
  { baseU with hasDocHidden := fun _ => true }

/-- `baseU` where the target `⟨1⟩` is primitive and not doc-reachable
(every other definition stays reachable). -/
def uC5 : Universe :=
  { baseU with
    isDocReachable := fun d => decide (d ≠ ⟨1⟩)
    typeOf := fun d => if d.id ≥ 3 then Ty.param 0 else Ty.prim 0 }

/-- `baseU` where every implementation's self type is the concrete target
type rather than a parameter. -/
def uC6 : Universe :=
  { baseU with
    implTraitRef := fun _ => some { trait := ⟨2⟩, self_ty := Ty.adt ⟨1⟩, args := [] } }

/-- `baseU` where the sole relevant implementation `⟨5⟩` has no trait
reference. -/
def u7a : Universe :=
  { baseU with
    implTraitRef := fun _ => none
    relevantImpls := fun t _ => if t = ⟨2⟩ then [⟨5⟩] else [] }

/-- `baseU` where the sole relevant implementation `⟨7⟩` has no trait
reference. -/
def u7b : Universe :=
  { baseU with
    implTraitRef := fun _ => none
    relevantImpls := fun t _ => if t = ⟨2⟩ then [⟨7⟩] else [] }

/-- `baseU` with an unreachable (non-primitive) target `⟨1⟩`. -/
def uC5n : Universe :=
  { baseU with isDocReachable := fun d => decide (d ≠ ⟨1⟩) }

/-- The record synthesized from `uC1w` for trait `⟨6⟩` when the pair
`(⟨1⟩, ⟨2⟩)` is already in the ledger. -/
def item6 : Item :=
  { source := 0
    name := none
    visibility := none
    def_id := ⟨100⟩
    stability := none
    deprecation := none
    inner :=
      { generics := (1, [])
        provided_trait_methods := ["foo"]
        trait_ := some ⟨6⟩
        for_ := Ty.adt ⟨1⟩
        items := []
        polarity := none
        synthetic := false
        blanket_impl := some (Ty.param 0) } }

/-- The record synthesized from `uC3` (whose implementation redefines the
default method `foo`). -/
def itemC3 : Item :=
  { source := 0
    name := none
    visibility := none
    def_id := ⟨100⟩
    stability := none
    deprecation := none
    inner :=
      { generics := (1, [])
        provided_trait_methods := ["foo"]
        trait_ := some ⟨2⟩
        for_ := Ty.adt ⟨1⟩
        items := ["foo"]
        polarity := none
        synthetic := false
        blanket_impl := some (Ty.param 0) } }

/-- The field shape every record synthesized for trait `t` has. -/
def goodItem (u : Universe) (t : DefId) (it : Item) : Prop :=
  it.inner.trait_ = some t ∧ it.inner.synthetic = false ∧
  it.inner.polarity = none ∧
  it.inner.provided_trait_methods = u.providedTraitMethods t ∧
  it.inner.blanket_impl.isSome = true

/-! ### Structural lemmas about one candidate check -/

/-- Case analysis of a successful candidate check: either the candidate
was discarded and the state is untouched, or exactly one record was
produced, the `(target, trait)` pair was pushed onto the ledger, and the
record's fields are the ones the source constructs. -/
theorem checkImpl_ok_cases (u : Universe) (c : DefId → Def) (d : DefId)
    (n : Option String) (t i : DefId) (st st' : FinderState) (r : Option Item)
    (h : checkImpl u c d n t i st = Except.ok (st', r)) :
    (r = none ∧ st' = st) ∨
    (∃ it, r = some it ∧ st'.ledger = (d, t) :: st.ledger ∧
      st'.counter = st.counter + 1 ∧
      it.inner.trait_ = some t ∧ it.inner.synthetic = false ∧
      it.inner.polarity = none ∧
      it.inner.provided_trait_methods = u.providedTraitMethods t ∧
      it.inner.blanket_impl = some (u.typeOf i) ∧
      it.inner.for_ = u.getRealTy c d n) := by
  simp only [checkImpl] at h
  split at h
  · exact absurd h (by simp)
  · split at h
    · split at h
      · split at h
        · rw [Except.ok.injEq, Prod.mk.injEq] at h
          obtain ⟨h1, h2⟩ := h
          subst h1; subst h2
          right
          exact ⟨_, rfl, rfl, rfl, rfl, rfl, rfl, rfl, rfl, rfl⟩
        · rw [Except.ok.injEq, Prod.mk.injEq] at h
          obtain ⟨h1, h2⟩ := h
          subst h1; subst h2
          exact Or.inl ⟨rfl, rfl⟩
      · rw [Except.ok.injEq, Prod.mk.injEq] at h
        obtain ⟨h1, h2⟩ := h
        subst h1; subst h2
        exact Or.inl ⟨rfl, rfl⟩
    · rw [Except.ok.injEq, Prod.mk.injEq] at h
      obtain ⟨h1, h2⟩ := h
      subst h1; subst h2
      exact Or.inl ⟨rfl, rfl⟩

/-- A candidate whose trait reference is missing aborts the check with the
source's fixed panic message. -/
theorem checkImpl_error_of_none (u : Universe) (c : DefId → Def) (d : DefId)
    (n : Option String) (t i : DefId) (st : FinderState)
    (h : u.implTraitRef i = none) :
    checkImpl u c d n t i st = Except.error "Cannot get impl trait" := by
  simp [checkImpl, h]

/-- A candidate whose trait reference exists never aborts the check. -/
theorem checkImpl_ok_of_some (u : Universe) (c : DefId → Def) (d : DefId)
    (n : Option String) (t i : DefId) (st : FinderState) (tr : TraitRef)
    (h : u.implTraitRef i = some tr) :
    ∃ p, checkImpl u c d n t i st = Except.ok p := by
  simp only [checkImpl, h]
  split
  · split
    · split
      · exact ⟨_, rfl⟩
      · exact ⟨_, rfl⟩
    · exact ⟨_, rfl⟩
  · exact ⟨_, rfl⟩

/-- A candidate whose self type is not a type parameter is discarded
without touching the state. -/
theorem checkImpl_notParam (u : Universe) (c : DefId → Def) (d : DefId)
    (n : Option String) (t i : DefId) (st : FinderState) (tr : TraitRef)
    (h1 : u.implTraitRef i = some tr) (h2 : tr.self_ty.isParam = false) :
    checkImpl u c d n t i st = Except.ok (st, none) := by
  simp [checkImpl, h1, h2]

/-! ### Structural lemmas about the candidate loop of one trait -/

/-- Invariant of the candidate loop for one trait: the ledger only grows,
every pair pushed is `(target, trait)`, and every record produced has the
synthesized field shape with its pair in the post-loop ledger. -/
theorem checkImpls_ok_cases (u : Universe) (c : DefId → Def) (d : DefId)
    (n : Option String) (t : DefId) :
    ∀ (is : List DefId) (st st' : FinderState) (items : List Item),
    checkImpls u c d n t is st = Except.ok (st', items) →
    (∃ l, st'.ledger = l ++ st.ledger ∧ ∀ p ∈ l, p = (d, t)) ∧
    ∀ it ∈ items, goodItem u t it ∧ (d, t) ∈ st'.ledger := by
  intro is
  induction is with
  | nil =>
    intro st st' items h
    simp only [checkImpls] at h
    rw [Except.ok.injEq, Prod.mk.injEq] at h
    obtain ⟨h1, h2⟩ := h
    subst h1; subst h2
    exact ⟨⟨[], rfl, by simp⟩, by simp⟩
  | cons i rest ih =>
    intro st st' items h
    cases heq1 : checkImpl u c d n t i st with
    | error e => simp only [checkImpls, heq1] at h; exact absurd h (by simp)
    | ok p =>
      obtain ⟨st1, r⟩ := p
      cases heq2 : checkImpls u c d n t rest st1 with
      | error e => simp only [checkImpls, heq1, heq2] at h; exact absurd h (by simp)
      | ok q =>
        obtain ⟨st2, items2⟩ := q
        simp only [checkImpls, heq1, heq2] at h
        rw [Except.ok.injEq, Prod.mk.injEq] at h
        obtain ⟨h1, h2⟩ := h
        subst h1; subst h2
        obtain ⟨⟨l, hl, hlall⟩, hitems⟩ := ih _ _ _ heq2
        rcases checkImpl_ok_cases u c d n t i st st1 r heq1 with
          ⟨hr, hst⟩ | ⟨it, hr, hled, _, ht, hsyn, hpol, hprov, hbl, _⟩
        · subst hst
          refine ⟨⟨l, hl, hlall⟩, ?_⟩
          intro x hx
          rw [hr] at hx
          simp only [Option.toList_none, List.nil_append] at hx
          exact hitems x hx
        · have hmem : (d, t) ∈ st1.ledger := by
            rw [hled]; exact List.mem_cons_self _ _
          have hmem' : (d, t) ∈ st2.ledger := by
            rw [hl]; exact List.mem_append_right _ hmem
          refine ⟨⟨l ++ [(d, t)], ?_, ?_⟩, ?_⟩
          · rw [hl, hled, List.append_assoc, List.singleton_append]
          · intro p hp
            rcases List.mem_append.mp hp with hp | hp
            · exact hlall p hp
            · simpa using hp
          · intro x hx
            rw [hr] at hx
            simp only [Option.toList_some, List.singleton_append,
              List.mem_cons] at hx
            rcases hx with hx | hx
            · subst hx
              exact ⟨⟨ht, hsyn, hpol, hprov, by rw [hbl]; rfl⟩, hmem'⟩
            · exact hitems x hx

/-- The candidate loop never aborts when every implementation in the
universe carries a trait reference. -/
theorem checkImpls_ok_of_all_some (u : Universe) (c : DefId → Def)
    (d : DefId) (n : Option String) (t : DefId)
    (hall : ∀ j, (u.implTraitRef j).isSome = true) :
    ∀ (is : List DefId) (st : FinderState),
    ∃ p, checkImpls u c d n t is st = Except.ok p := by
  intro is
  induction is with
  | nil => intro st; exact ⟨_, rfl⟩
  | cons i rest ih =>
    intro st
    obtain ⟨tr, htr⟩ := Option.isSome_iff_exists.mp (hall i)
    obtain ⟨⟨st1, r⟩, h1⟩ := checkImpl_ok_of_some u c d n t i st tr htr
    obtain ⟨⟨st2, items2⟩, h2⟩ := ih st1
    exact ⟨(st2, r.toList ++ items2), by simp only [checkImpls, h1, h2]⟩

/-- When every implementation's self type is concrete (non-parameter),
the candidate loop of any trait discards everything and leaves the state
untouched. -/
theorem checkImpls_id_of_notParam (u : Universe) (c : DefId → Def)
    (d : DefId) (n : Option String) (t : DefId)
    (hall : ∀ j, ∃ tr, u.implTraitRef j = some tr ∧ tr.self_ty.isParam = false) :
    ∀ (is : List DefId) (st : FinderState),
    checkImpls u c d n t is st = Except.ok (st, []) := by
  intro is
  induction is with
  | nil => intro st; rfl
  | cons i rest ih =>
    intro st
    obtain ⟨tr, htr, hnp⟩ := hall i
    simp only [checkImpls, checkImpl_notParam u c d n t i st tr htr hnp, ih st]
    rfl

/-! ### Structural lemmas about the trait loop -/

/-- Invariant of the trait loop: the ledger only grows, and every record
produced names some trait whose `(target, trait)` pair is in the
post-loop ledger, with the synthesized field shape. -/
theorem traitLoop_ok_cases (u : Universe) (c : DefId → Def) (d : DefId)
    (n : Option String) (ty : Ty) :
    ∀ (ts : List DefId) (st st' : FinderState) (items : List Item),
    traitLoop u c d n ty ts st = Except.ok (st', items) →
    (∃ l, st'.ledger = l ++ st.ledger) ∧
    ∀ it ∈ items, ∃ t, goodItem u t it ∧ (d, t) ∈ st'.ledger := by
  intro ts
  induction ts with
  | nil =>
    intro st st' items h
    simp only [traitLoop] at h
    rw [Except.ok.injEq, Prod.mk.injEq] at h
    obtain ⟨h1, h2⟩ := h
    subst h1; subst h2
    exact ⟨⟨[], rfl⟩, by simp⟩
  | cons t rest ih =>
    intro st st' items h
    simp only [traitLoop] at h
    split at h
    · exact ih _ _ _ h
    · cases heq1 : checkImpls u c d n t (u.relevantImpls t ty) st with
      | error e => simp only [heq1] at h; exact absurd h (by simp)
      | ok p =>
        obtain ⟨st1, items1⟩ := p
        cases heq2 : traitLoop u c d n ty rest st1 with
        | error e => simp only [heq1, heq2] at h; exact absurd h (by simp)
        | ok q =>
          obtain ⟨st2, items2⟩ := q
          simp only [heq1, heq2] at h
          rw [Except.ok.injEq, Prod.mk.injEq] at h
          obtain ⟨h1, h2⟩ := h
          subst h1; subst h2
          obtain ⟨⟨l1, hl1, _⟩, hitems1⟩ := checkImpls_ok_cases u c d n t _ _ _ _ heq1
          obtain ⟨⟨l2, hl2⟩, hitems2⟩ := ih _ _ _ heq2
          refine ⟨⟨l2 ++ l1, by rw [hl2, hl1, List.append_assoc]⟩, ?_⟩
          intro x hx
          rcases List.mem_append.mp hx with hx | hx
          · obtain ⟨hgood, hmem⟩ := hitems1 x hx
            exact ⟨t, hgood, by rw [hl2]; exact List.mem_append_right _ hmem⟩
          · exact hitems2 x hx

/-- Once a `(target, trait)` pair is in the ledger when the trait loop
starts, no record naming that trait is produced by the loop. -/
theorem traitLoop_skip_mem (u : Universe) (c : DefId → Def) (d : DefId)
    (n : Option String) (ty : Ty) :
    ∀ (ts : List DefId) (st st' : FinderState) (items : List Item) (t0 : DefId),
    (d, t0) ∈ st.ledger →
    traitLoop u c d n ty ts st = Except.ok (st', items) →
    ∀ it ∈ items, it.inner.trait_ ≠ some t0 := by
  intro ts
  induction ts with
  | nil =>
    intro st st' items t0 _ h
    simp only [traitLoop] at h
    rw [Except.ok.injEq, Prod.mk.injEq] at h
    obtain ⟨_, h2⟩ := h
    subst h2
    simp
  | cons t rest ih =>
    intro st st' items t0 h0 h
    simp only [traitLoop] at h
    split at h
    · exact ih _ _ _ _ h0 h
    next hcond =>
      have hne : t ≠ t0 := by
        intro heq0
        exact hcond (Or.inr (heq0 ▸ h0))
      cases heq1 : checkImpls u c d n t (u.relevantImpls t ty) st with
      | error e => simp only [heq1] at h; exact absurd h (by simp)
      | ok p =>
        obtain ⟨st1, items1⟩ := p
        cases heq2 : traitLoop u c d n ty rest st1 with
        | error e => simp only [heq1, heq2] at h; exact absurd h (by simp)
        | ok q =>
          obtain ⟨st2, items2⟩ := q
          simp only [heq1, heq2] at h
          rw [Except.ok.injEq, Prod.mk.injEq] at h
          obtain ⟨h1, h2⟩ := h
          subst h1; subst h2
          obtain ⟨⟨l1, hl1, _⟩, hitems1⟩ := checkImpls_ok_cases u c d n t _ _ _ _ heq1
          have h0' : (d, t0) ∈ st1.ledger := by
            rw [hl1]; exact List.mem_append_right _ h0
          intro x hx
          rcases List.mem_append.mp hx with hx | hx
          · obtain ⟨⟨ht, _⟩, _⟩ := hitems1 x hx
            rw [ht]
            intro hsome0
            exact hne (Option.some.inj hsome0)
          · exact ih _ _ _ _ h0' heq2 x hx

/-- The trait loop never aborts when every implementation in the universe
carries a trait reference. -/
theorem traitLoop_ok_of_all_some (u : Universe) (c : DefId → Def)
    (d : DefId) (n : Option String) (ty : Ty)
    (hall : ∀ j, (u.implTraitRef j).isSome = true) :
    ∀ (ts : List DefId) (st : FinderState),
    ∃ p, traitLoop u c d n ty ts st = Except.ok p := by
  intro ts
  induction ts with
  | nil => intro st; exact ⟨_, rfl⟩
  | cons t rest ih =>
    intro st
    by_cases hcond : u.isDocReachable t = false ∨ (d, t) ∈ st.ledger
    · obtain ⟨p, hp⟩ := ih st
      exact ⟨p, by simp only [traitLoop, if_pos hcond, hp]⟩
    · obtain ⟨⟨st1, items1⟩, h1⟩ :=
        checkImpls_ok_of_all_some u c d n t hall (u.relevantImpls t ty) st
      obtain ⟨⟨st2, items2⟩, h2⟩ := ih st1
      exact ⟨(st2, items1 ++ items2), by
        simp only [traitLoop, if_neg hcond, h1, h2]⟩

/-- When every implementation's self type is concrete (non-parameter),
the trait loop produces nothing and leaves the state untouched. -/
theorem traitLoop_id_of_notParam (u : Universe) (c : DefId → Def)
    (d : DefId) (n : Option String) (ty : Ty)
    (hall : ∀ j, ∃ tr, u.implTraitRef j = some tr ∧ tr.self_ty.isParam = false) :
    ∀ (ts : List DefId) (st : FinderState),
    traitLoop u c d n ty ts st = Except.ok (st, []) := by
  intro ts
  induction ts with
  | nil => intro st; rfl
  | cons t rest ih =>
    intro st
    by_cases hcond : u.isDocReachable t = false ∨ (d, t) ∈ st.ledger
    · simp only [traitLoop, if_pos hcond, ih st]
    · simp only [traitLoop, if_neg hcond,
        checkImpls_id_of_notParam u c d n t hall (u.relevantImpls t ty) st,
        ih st]
      rfl

/-! ### The display constructor and name only influence the `for` type -/

/-- One candidate check with a different display constructor and name:
same outcome up to rewriting the `for_` field of the produced record. -/
theorem checkImpl_ctor (u : Universe) (c1 c2 : DefId → Def) (d : DefId)
    (n1 n2 : Option String) (t i : DefId) (st : FinderState) :
    checkImpl u c2 d n2 t i st =
      (checkImpl u c1 d n1 t i st).map
        (fun p => (p.1, p.2.map (setFor (u.getRealTy c2 d n2)))) := by
  simp only [checkImpl]
  cases u.implTraitRef i with
  | none => rfl
  | some tr =>
    simp only
    split
    · split
      · split
        · rfl
        · rfl
      · rfl
    · rfl

/-- The candidate loop of one trait with a different display constructor
and name: same outcome up to rewriting the `for_` fields. -/
theorem checkImpls_ctor (u : Universe) (c1 c2 : DefId → Def) (d : DefId)
    (n1 n2 : Option String) (t : DefId) :
    ∀ (is : List DefId) (st : FinderState),
    checkImpls u c2 d n2 t is st =
      (checkImpls u c1 d n1 t is st).map
        (fun p => (p.1, p.2.map (setFor (u.getRealTy c2 d n2)))) := by
  intro is
  induction is with
  | nil => intro st; rfl
  | cons i rest ih =>
    intro st
    simp only [checkImpls]
    rw [checkImpl_ctor u c1 c2 d n1 n2 t i st]
    cases h1 : checkImpl u c1 d n1 t i st with
    | error e => rfl
    | ok p =>
      obtain ⟨st1, r⟩ := p
      simp only [Except.map]
      rw [ih st1]
      cases h2 : checkImpls u c1 d n1 t rest st1 with
      | error e => rfl
      | ok q =>
        obtain ⟨st2, items2⟩ := q
        simp only [Except.map, Except.ok.injEq, Prod.mk.injEq, true_and]
        cases r <;> simp [setFor]

/-- The trait loop with a different display constructor and name: same
outcome up to rewriting the `for_` fields. -/
theorem traitLoop_ctor (u : Universe) (c1 c2 : DefId → Def) (d : DefId)
    (n1 n2 : Option String) (ty : Ty) :
    ∀ (ts : List DefId) (st : FinderState),
    traitLoop u c2 d n2 ty ts st =
      (traitLoop u c1 d n1 ty ts st).map
        (fun p => (p.1, p.2.map (setFor (u.getRealTy c2 d n2)))) := by
  intro ts
  induction ts with
  | nil => intro st; rfl
  | cons t rest ih =>
    intro st
    simp only [traitLoop]
    split
    · exact ih st
    · rw [checkImpls_ctor u c1 c2 d n1 n2 t (u.relevantImpls t ty) st]
      cases h1 : checkImpls u c1 d n1 t (u.relevantImpls t ty) st with
      | error e => rfl
      | ok p =>
        obtain ⟨st1, items1⟩ := p
        simp only [Except.map]
        rw [ih st1]
        cases h2 : traitLoop u c1 d n1 ty rest st1 with
        | error e => rfl
        | ok q =>
          obtain ⟨st2, items2⟩ := q
          simp [Except.map]

/-- `get_blanket_impls` with a different display constructor and name:
same outcome up to rewriting the `for_` fields. -/
theorem get_blanket_impls_ctor (u : Universe) (c1 c2 : DefId → Def)
    (d : DefId) (n1 n2 : Option String) (st : FinderState) :
    get_blanket_impls u c2 d n2 st =
      (get_blanket_impls u c1 d n1 st).map
        (fun p => (p.1, p.2.map (setFor (u.getRealTy c2 d n2)))) := by
  simp only [get_blanket_impls]
  split
  · rfl
  · split
    · exact traitLoop_ctor u c1 c2 d n1 n2 (u.typeOf d) u.allTraits st
    · rfl

/-- Scrubbing the `for_` field erases any prior rewrite of it. -/
theorem scrub_map_setFor (v : Ty) (r : Except String (FinderState × List Item)) :
    scrub (r.map (fun p => (p.1, p.2.map (setFor v)))) = scrub r := by
  cases r with
  | error e => rfl
  | ok p =>
    obtain ⟨st, items⟩ := p
    simp only [scrub, Except.map, Except.ok.injEq, Prod.mk.injEq, true_and,
      List.map_map]
    induction items with
    | nil => rfl
    | cons x xs ih => simp [setFor, ih]

/-- Invariant of a whole successful analysis: the ledger only grows, and
every record names some trait whose pair with the target is in the final
ledger, with the synthesized field shape. -/
theorem get_blanket_impls_ok_cases (u : Universe) (c : DefId → Def)
    (d : DefId) (n : Option String) (st st' : FinderState)
    (items : List Item)
    (h : get_blanket_impls u c d n st = Except.ok (st', items)) :
    (∃ l, st'.ledger = l ++ st.ledger) ∧
    ∀ it ∈ items, ∃ t, goodItem u t it ∧ (d, t) ∈ st'.ledger := by
  simp only [get_blanket_impls] at h
  split at h
  · rw [Except.ok.injEq, Prod.mk.injEq] at h
    obtain ⟨h1, h2⟩ := h
    subst h1; subst h2
    exact ⟨⟨[], rfl⟩, by simp⟩
  · split at h
    · exact traitLoop_ok_cases u c d n (u.typeOf d) u.allTraits st st' items h
    · rw [Except.ok.injEq, Prod.mk.injEq] at h
      obtain ⟨h1, h2⟩ := h
      subst h1; subst h2
      exact ⟨⟨[], rfl⟩, by simp⟩

/-! ### The claims -/

/-- C1, counterexample: in `uC1` two candidate blanket implementations of
the same trait `⟨2⟩` both pass unification and the plausibility check,
and the result of one `get_blanket_impls` call contains TWO records
naming that trait — the ledger is consulted only once per trait, before
its candidates are scanned, so entering the pair in the ledger at the
first candidate does not stop the second candidate in the same scan. -/
theorem claim1_counterexample :
    ¬ countTrait (resultItems (get_blanket_impls uC1 c0 dX none st0)) tT ≤ 1 := by
  decide

/-- C1, amended: if the `(target, trait)` pair is already in the
memoization ledger when `get_blanket_impls` is called, no record naming
that trait is produced; within a single call, however, each qualifying
candidate of a not-yet-memoized trait produces its own record. -/
theorem claim1_ledger_suppression (u : Universe) (c : DefId → Def)
    (d : DefId) (n : Option String) (t : DefId) (st st' : FinderState)
    (items : List Item)
    (h0 : (d, t) ∈ st.ledger)
    (h : get_blanket_impls u c d n st = Except.ok (st', items)) :
    items.all (fun it => decide (it.inner.trait_ ≠ some t)) = true := by
  rw [List.all_eq_true]
  intro it hit
  simp only [get_blanket_impls] at h
  split at h
  · rw [Except.ok.injEq, Prod.mk.injEq] at h
    obtain ⟨-, h2⟩ := h
    subst h2
    exact absurd hit (List.not_mem_nil it)
  · split at h
    · exact decide_eq_true
        (traitLoop_skip_mem u c d n (u.typeOf d) u.allTraits st st' items t
          h0 h it hit)
    · rw [Except.ok.injEq, Prod.mk.injEq] at h
      obtain ⟨-, h2⟩ := h
      subst h2
      exact absurd hit (List.not_mem_nil it)

/-- C1, witness: with `(⟨1⟩, ⟨2⟩)` preloaded in the ledger of `uC1w`, the
analysis still synthesizes a record for the other trait `⟨6⟩`, but none
naming `⟨2⟩`. -/
theorem claim1_ledger_suppression_witness :
    List.all [item6] (fun it => decide (it.inner.trait_ ≠ some tT)) = true :=
  claim1_ledger_suppression uC1w c0 dX none tT ⟨[(dX, tT)], 0⟩
    ⟨[(dX, ⟨6⟩), (dX, tT)], 1⟩ [item6] (by decide) rfl

/-- C2, counterexample: the record emitted by the concrete run on `baseU`
has its `synthetic` flag set to `false` (and `polarity = none`), refuting
the claim that the synthetic flag is set to `true`. -/
theorem claim2_counterexample :
    (resultItems (get_blanket_impls baseU c0 dX none st0)).map
      (fun it => (it.inner.synthetic, it.inner.polarity)) = [(false, none)] := by
  decide

/-- C2, amended: every record emitted by `get_blanket_impls` has
`synthetic = false` and `polarity = none`; its blanket origin is recorded
in the `blanket_impl` field instead, which is always set. -/
theorem claim2_flags (u : Universe) (c : DefId → Def) (d : DefId)
    (n : Option String) (st st' : FinderState) (items : List Item)
    (h : get_blanket_impls u c d n st = Except.ok (st', items)) :
    items.all (fun it => !it.inner.synthetic && it.inner.polarity.isNone &&
      it.inner.blanket_impl.isSome) = true := by
  obtain ⟨-, hall⟩ := get_blanket_impls_ok_cases u c d n st st' items h
  rw [List.all_eq_true]
  intro it hit
  obtain ⟨t, ⟨-, hsyn, hpol, -, hbl⟩, -⟩ := hall it hit
  rw [hsyn, hpol, hbl]
  rfl

/-- C2, witness: the flags of the record of the concrete run on `baseU`. -/
theorem claim2_flags_witness :
    List.all [itemBase] (fun it => !it.inner.synthetic &&
      it.inner.polarity.isNone && it.inner.blanket_impl.isSome) = true :=
  claim2_flags baseU c0 dX none st0 stBase [itemBase] rfl

/-- C3, counterexample: in `uC3` the implementation redefines the trait's
only default method `foo`, yet the emitted record's
`provided_trait_methods` still contains `foo` — it is NOT the set of
default methods not redefined by the implementation (which is empty, as
`specProvidedTraitMethods` computes following the claim's words). -/
theorem claim3_counterexample :
    (resultItems (get_blanket_impls uC3 c0 dX none st0)).map
      (fun it => it.inner.provided_trait_methods) = [["foo"]] ∧
    specProvidedTraitMethods uC3 tT i1 = [] := by
  constructor
  · decide
  · decide

/-- C3, amended: the `provided_trait_methods` field of every emitted
record equals the names of ALL the trait's default methods
(`tcx.provided_trait_methods`), with no subtraction of the methods the
matched implementation redefines. -/
theorem claim3_provided_methods (u : Universe) (c : DefId → Def)
    (d : DefId) (n : Option String) (st st' : FinderState)
    (items : List Item) (it : Item) (t : DefId)
    (h : get_blanket_impls u c d n st = Except.ok (st', items))
    (hit : it ∈ items) (ht : it.inner.trait_ = some t) :
    it.inner.provided_trait_methods = u.providedTraitMethods t := by
  obtain ⟨-, hall⟩ := get_blanket_impls_ok_cases u c d n st st' items h
  obtain ⟨t', ⟨ht', -, -, hprov, -⟩, -⟩ := hall it hit
  rw [ht'] at ht
  rw [Option.some.inj ht] at hprov
  exact hprov

/-- C3, witness: the record of the concrete run on `uC3` carries all of
the trait's default methods. -/
theorem claim3_provided_methods_witness :
    itemC3.inner.provided_trait_methods = uC3.providedTraitMethods tT :=
  claim3_provided_methods uC3 c0 dX none st0 stBase [itemC3] itemC3 tT rfl
    (by simp) rfl

/-- C4, confirmed: through either entry point, a target carrying the
`doc(hidden)` marker yields the empty sequence and an untouched state —
the hidden check is the first thing `get_blanket_impls` does, before any
trait or candidate is examined, whatever the universe contains. -/
theorem claim4_hidden_suppression (u : Universe) (id : Nat) (nm : String)
    (d : DefId) (st : FinderState) :
    (u.hasDocHidden d = true →
      get_with_def_id u d st = Except.ok (st, [])) ∧
    (u.hasDocHidden (u.localDefId id) = true →
      get_with_node_id u id nm st = Except.ok (st, [])) := by
  constructor
  · intro h
    simp [get_with_def_id, get_blanket_impls, h]
  · intro h
    simp [get_with_node_id, get_blanket_impls, h]

/-- C4, witness: both entry points on the hidden universe. -/
theorem claim4_hidden_suppression_witness :
    get_with_def_id uHidden dX st0 = Except.ok (st0, []) ∧
    get_with_node_id uHidden 1 "X" st0 = Except.ok (st0, []) :=
  ⟨(claim4_hidden_suppression uHidden 1 "X" dX st0).1 rfl,
   (claim4_hidden_suppression uHidden 1 "X" dX st0).2 rfl⟩

/-- C5, confirmed: for a non-hidden, non-doc-reachable target, the trait
loop runs only when the target's type is primitive — a non-primitive
unreachable target always yields the empty sequence, while the concrete
primitive unreachable target of `uC5` (with a matching blanket
implementation) still yields one record. -/
theorem claim5_reachability_gate (u : Universe) (c : DefId → Def)
    (d : DefId) (n : Option String) (st : FinderState)
    (hh : u.hasDocHidden d = false) (hr : u.isDocReachable d = false) :
    ((u.typeOf d).isPrimitive = false →
      get_blanket_impls u c d n st = Except.ok (st, [])) ∧
    ((u.typeOf d).isPrimitive = true →
      get_blanket_impls u c d n st =
        traitLoop u c d n (u.typeOf d) u.allTraits st) ∧
    (resultItems (get_blanket_impls uC5 c0 dX none st0)).length = 1 := by
  refine ⟨?_, ?_, by decide⟩
  · intro hp
    simp [get_blanket_impls, hh, hr, hp]
  · intro hp
    simp [get_blanket_impls, hh, hr, hp]

/-- C5, witness: a non-primitive unreachable target (`uC5n`) yields
nothing; the primitive unreachable target of `uC5` proceeds to the trait
loop. -/
theorem claim5_reachability_gate_witness :
    get_blanket_impls uC5n c0 dX none st0 = Except.ok (st0, []) ∧
    get_blanket_impls uC5 c0 dX none st0 =
      traitLoop uC5 c0 dX none (uC5.typeOf dX) uC5.allTraits st0 :=
  ⟨(claim5_reachability_gate uC5n c0 dX none st0 rfl rfl).1 rfl,
   (claim5_reachability_gate uC5 c0 dX none st0 rfl rfl).2.1 rfl⟩

/-- C6, confirmed: a candidate implementation whose self type is not a
free type parameter is always discarded with no record and no state
change; consequently, in a universe where every implementation has a
concrete self type, `get_blanket_impls` returns the empty sequence even
though the unification service would accept every pair. -/
theorem claim6_nonblanket_exclusion (u : Universe) (c : DefId → Def)
    (d : DefId) (n : Option String) (st : FinderState) :
    (∀ t i st' tr, u.implTraitRef i = some tr →
      tr.self_ty.isParam = false →
      checkImpl u c d n t i st' = Except.ok (st', none)) ∧
    ((∀ j, ∃ tr, u.implTraitRef j = some tr ∧ tr.self_ty.isParam = false) →
      get_blanket_impls u c d n st = Except.ok (st, [])) := by
  constructor
  · intro t i st' tr h1 h2
    exact checkImpl_notParam u c d n t i st' tr h1 h2
  · intro hall
    simp only [get_blanket_impls]
    split
    · rfl
    · split
      · exact traitLoop_id_of_notParam u c d n _ hall u.allTraits st
      · rfl

/-- C6, witness: in `uC6` (self type is the concrete target type, and the
unification service accepts everything) the candidate is discarded and
the whole analysis yields nothing. -/
theorem claim6_nonblanket_exclusion_witness :
    checkImpl uC6 c0 dX none tT i1 st0 = Except.ok (st0, none) ∧
    get_blanket_impls uC6 c0 dX none st0 = Except.ok (st0, []) :=
  ⟨(claim6_nonblanket_exclusion uC6 c0 dX none st0).1 tT i1 st0
      { trait := ⟨2⟩, self_ty := Ty.adt ⟨1⟩, args := [] } rfl rfl,
   (claim6_nonblanket_exclusion uC6 c0 dX none st0).2
      (fun _ => ⟨{ trait := ⟨2⟩, self_ty := Ty.adt ⟨1⟩, args := [] }, rfl, rfl⟩)⟩

/-- C7, counterexample: the abort diagnostic is the fixed string
`"Cannot get impl trait"`, identical whether the offending implementation
is `⟨5⟩` (universe `u7a`) or `⟨7⟩` (universe `u7b`) — it does not
identify the offending implementation, refuting that part of the claim. -/
theorem claim7_counterexample :
    get_blanket_impls u7a c0 dX none st0 =
      Except.error "Cannot get impl trait" ∧
    get_blanket_impls u7b c0 dX none st0 =
      Except.error "Cannot get impl trait" := by
  constructor
  · rfl
  · rfl

/-- C7, amended: a candidate without a trait reference aborts the
analysis with the fixed diagnostic `"Cannot get impl trait"` (rather than
being skipped), and this is the only fatal condition: when every
implementation carries a trait reference the analysis always completes,
whatever the hidden/reachability flags, shapes, unification and
plausibility outcomes are. -/
theorem claim7_missing_trait_ref (u : Universe) (c : DefId → Def)
    (d : DefId) (n : Option String) (t i : DefId) (st : FinderState) :
    (u.implTraitRef i = none →
      checkImpl u c d n t i st = Except.error "Cannot get impl trait") ∧
    ((∀ j, (u.implTraitRef j).isSome = true) →
      analysisOk (get_blanket_impls u c d n st) = true) := by
  constructor
  · exact checkImpl_error_of_none u c d n t i st
  · intro hall
    simp only [get_blanket_impls]
    split
    · rfl
    · split
      · obtain ⟨p, hp⟩ :=
          traitLoop_ok_of_all_some u c d n (u.typeOf d) hall u.allTraits st
        rw [hp]
        rfl
      · rfl

/-- C7, witness: the abort on `u7a` and the completion on `baseU`. -/
theorem claim7_missing_trait_ref_witness :
    checkImpl u7a c0 dX none tT ⟨5⟩ st0 =
      Except.error "Cannot get impl trait" ∧
    analysisOk (get_blanket_impls baseU c0 dX none st0) = true :=
  ⟨(claim7_missing_trait_ref u7a c0 dX none tT ⟨5⟩ st0).1 rfl,
   (claim7_missing_trait_ref baseU c0 dX none tT ⟨5⟩ st0).2 (fun _ => rfl)⟩

/-- C8, confirmed: after a successful analysis, every trait named by a
record of the result has its `(target, trait)` pair in the final ledger
(the pair is inserted before the record is appended, and the ledger only
grows afterwards). -/
theorem claim8_monotonic_ledger (u : Universe) (c : DefId → Def)
    (d : DefId) (n : Option String) (st st' : FinderState)
    (items : List Item)
    (h : get_blanket_impls u c d n st = Except.ok (st', items)) :
    ledgerCovers d st'.ledger items = true := by
  obtain ⟨-, hall⟩ := get_blanket_impls_ok_cases u c d n st st' items h
  rw [ledgerCovers, List.all_eq_true]
  intro it hit
  obtain ⟨t, ⟨ht, -⟩, hmem⟩ := hall it hit
  simp only [ht]
  exact decide_eq_true hmem

/-- C8, witness: the concrete run on `baseU`. -/
theorem claim8_monotonic_ledger_witness :
    ledgerCovers dX stBase.ledger [itemBase] = true :=
  claim8_monotonic_ledger baseU c0 dX none st0 stBase [itemBase] rfl

/-- C9, confirmed: for the same resolved target and the same universe,
the two entry points produce the same outcome — same abort or success,
same final state, same records in the same order — up to the display
`for_` type, which is the only field `scrub` erases. -/
theorem claim9_entry_points_agree (u : Universe) (id : Nat) (nm : String)
    (d : DefId) (st : FinderState) (h : u.localDefId id = d) :
    scrub (get_with_def_id u d st) = scrub (get_with_node_id u id nm st) := by
  rw [get_with_def_id, get_with_node_id, h]
  rw [get_blanket_impls_ctor u (u.defCtorOfDef d) (u.defCtorOfNode id) d
    none (some nm) st]
  rw [scrub_map_setFor]

/-- C9, witness: both entry points on `baseU` for the target `⟨1⟩`. -/
theorem claim9_entry_points_agree_witness :
    scrub (get_with_def_id baseU dX st0) =
      scrub (get_with_node_id baseU 1 "X" st0) :=
  claim9_entry_points_agree baseU 1 "X" dX st0 rfl

/-- C10, confirmed: a discarded candidate (non-parameter self type,
unification failure, or failed plausibility check) leaves the state —
ledger and counter — exactly unchanged, and the `(target, trait)` pair is
inserted into the ledger exactly in the step that also produces the
record for that pair. -/
theorem claim10_discard_no_effect (u : Universe) (c : DefId → Def)
    (d : DefId) (n : Option String) (t i : DefId) (st st' : FinderState)
    (r : Option Item)
    (h : checkImpl u c d n t i st = Except.ok (st', r)) :
    (r = none → st' = st) ∧
    (∀ it, r = some it →
      st'.ledger = (d, t) :: st.ledger ∧ it.inner.trait_ = some t) := by
  rcases checkImpl_ok_cases u c d n t i st st' r h with
    ⟨hr, hst⟩ | ⟨it, hr, hled, -, ht, -⟩
  · refine ⟨fun _ => hst, ?_⟩
    intro x hx
    rw [hr] at hx
    exact absurd hx (by simp)
  · constructor
    · intro h0
      rw [hr] at h0
      exact absurd h0 (by simp)
    · intro x hx
      rw [hr] at hx
      rw [← Option.some.inj hx]
      exact ⟨hled, ht⟩

/-- C10, witness: the qualifying candidate of `baseU` inserts its pair in
the same step that produces its record. -/
theorem claim10_discard_no_effect_witness :
    stBase.ledger = (dX, tT) :: st0.ledger ∧
    itemBase.inner.trait_ = some tT :=
  (claim10_discard_no_effect baseU c0 dX none tT i1 st0 stBase
    (some itemBase) rfl).2 itemBase rfl

end BlanketImpl
